import Mathlib

/-!
# Verification of the flight-event-throttler buffering core

A shallow embedding, in Lean 4, of the buffering and admission-control core
of the `flight-event-throttler` Go repository:

* `RingBuffer` embeds `internal/buffer/ring_buffer.go` (the circular buffer
  with oldest-overwrite eviction),
* `SlidingWindowBuffer` embeds `internal/buffer/sliding_window.go` (the
  time-windowed buffer with age-based expiry and a size cap),
* `RateLimiter` embeds the token-bucket admission controller of
  `internal/processor` (the bucket itself lives in the vendored
  `golang.org/x/time/rate` library, so it is modelled from the spec),
* `EventProcessor` embeds the channel/select skeleton of the ingestion
  pipeline far enough to settle the post-`Stop` behaviour of `Submit`.

Conventions of the embedding:

* A `*model.FlightEvent` pointer is `Ev := Option Nat`: `none` is the Go
  `nil` pointer, `some k` an opaque live event.  Fresh slots of
  `make([]*model.FlightEvent, size)` hold `nil`, i.e. `none`.
* Go `time.Time` and `time.Duration` are `Int` (nanoseconds);
  `t.After(u)` is `u < t` and `t.Before(u)` is `t < u`.
* Methods that read the clock (`time.Now()`) take the current time `now`
  as an explicit argument.
* Mutating methods return the new state; methods that both return a value
  and mutate return a pair.
* A Go runtime panic (e.g. `make` with a negative capacity, or a send on a
  closed channel) is `none` in an `Option`-valued result.
* The `sync` mutexes serialise the operations; the embedding models the
  resulting sequential behaviour and elides the locks themselves.
-/

/-- A `*model.FlightEvent` pointer: `none` is Go's `nil`. -/
abbrev Ev := Option Nat

/-! ## Ring buffer (`internal/buffer/ring_buffer.go`) -/

/-- State of `buffer.RingBuffer`: slot array `buffer`, capacity `size`,
next write position `head`, oldest occupied position `tail`, the `count`
field and the `isFull` flag.  (`count` is the raw struct field; the
`Count()` method is `RingBuffer.Count` below.) -/
structure RingBuffer where
  buffer : List Ev
  size : Nat
  head : Nat
  tail : Nat
  count : Nat
  isFull : Bool
  deriving Repr, DecidableEq

/-- `NewRingBuffer(size)`: all slots hold `nil`, cursors and count at zero. -/
def NewRingBuffer (size : Nat) : RingBuffer :=
  { buffer := List.replicate size none
    size := size
    head := 0
    tail := 0
    count := 0
    isFull := false }

/-- `RingBuffer.Push`: write at `head`, advance `head`; when full advance
`tail` too (overwriting the oldest), otherwise increment `count` and set
`isFull` when the new `head` meets `tail`. -/
def RingBuffer.Push (rb : RingBuffer) (event : Ev) : RingBuffer :=
  let buf := rb.buffer.set rb.head event
  let head := (rb.head + 1) % rb.size
  if rb.isFull then
    { rb with buffer := buf, head := head, tail := (rb.tail + 1) % rb.size }
  else
    let count := rb.count + 1
    if head == rb.tail then
      { rb with buffer := buf, head := head, count := count, isFull := true }
    else
      { rb with buffer := buf, head := head, count := count }

/-- `RingBuffer.Pop`: return `nil` when `count == 0 && !isFull`; otherwise
read and clear the slot at `tail`, advance `tail`, and either clear
`isFull` (leaving `count` untouched) or decrement `count`. -/
def RingBuffer.Pop (rb : RingBuffer) : Ev × RingBuffer :=
  if rb.count == 0 && !rb.isFull then
    (none, rb)
  else
    let event := rb.buffer.getD rb.tail none
    let buf := rb.buffer.set rb.tail none
    let tail := (rb.tail + 1) % rb.size
    if rb.isFull then
      (event, { rb with buffer := buf, tail := tail, isFull := false })
    else
      (event, { rb with buffer := buf, tail := tail, count := rb.count - 1 })

/-- `RingBuffer.Count()`: `size` when full, else the `count` field. -/
def RingBuffer.Count (rb : RingBuffer) : Nat :=
  if rb.isFull then rb.size else rb.count

/-- `RingBuffer.IsFull()`. -/
def RingBuffer.IsFull (rb : RingBuffer) : Bool :=
  rb.isFull

/-- `RingBuffer.IsEmpty()`: `count == 0 && !isFull`. -/
def RingBuffer.IsEmpty (rb : RingBuffer) : Bool :=
  rb.count == 0 && !rb.isFull

/-- `RingBuffer.Peek()`. -/
def RingBuffer.Peek (rb : RingBuffer) : Ev :=
  if rb.count == 0 && !rb.isFull then none
  else rb.buffer.getD rb.tail none

/-- `RingBuffer.Clear()`. -/
def RingBuffer.Clear (rb : RingBuffer) : RingBuffer :=
  { rb with buffer := List.replicate rb.size none
            head := 0, tail := 0, count := 0, isFull := false }

/-- `RingBuffer.GetAll()`: empty when `IsEmpty`; when full read slots from
`tail` to the array end and then from the array start to `head`; when not
full read `tail` to `head`, wrapping the same way when `head <= tail`. -/
def RingBuffer.GetAll (rb : RingBuffer) : List Ev :=
  if rb.IsEmpty then []
  else if rb.isFull then
    ((List.range' rb.tail (rb.size - rb.tail)).map fun i => rb.buffer.getD i none)
      ++ ((List.range rb.head).map fun i => rb.buffer.getD i none)
  else if rb.tail < rb.head then
    (List.range' rb.tail (rb.head - rb.tail)).map fun i => rb.buffer.getD i none
  else
    ((List.range' rb.tail (rb.size - rb.tail)).map fun i => rb.buffer.getD i none)
      ++ ((List.range rb.head).map fun i => rb.buffer.getD i none)

/-- One iteration step of the `RingBuffer.PopBatch` loop, repeated `fuel`
times: stop early when `count == 0 && !isFull`, otherwise pop the slot at
`tail` exactly as `Pop` does and append it to the result. -/
def RingBuffer.popLoop : Nat → RingBuffer → List Ev → List Ev × RingBuffer
  | 0, rb, acc => (acc, rb)
  | Nat.succ k, rb, acc =>
    if rb.count == 0 && !rb.isFull then (acc, rb)
    else
      let event := rb.buffer.getD rb.tail none
      let buf := rb.buffer.set rb.tail none
      let tail := (rb.tail + 1) % rb.size
      let rb' :=
        if rb.isFull then { rb with buffer := buf, tail := tail, isFull := false }
        else { rb with buffer := buf, tail := tail, count := rb.count - 1 }
      RingBuffer.popLoop k rb' (acc ++ [event])

/-- `RingBuffer.PopBatch(n)` (`n` is a Go `int`): clamp `n` down to
`Count()`; return the empty batch when the clamped `n` is `0`; otherwise
Go evaluates `make([]*model.FlightEvent, 0, n)`, which panics when `n` is
negative (`none` here), and then runs the pop loop `n` times. -/
def RingBuffer.PopBatch (rb : RingBuffer) (n : Int) : Option (List Ev) × RingBuffer :=
  let available : Int := (rb.Count : Int)
  let n := if available < n then available else n
  if n = 0 then (some [], rb)
  else if n < 0 then (none, rb)
  else
    let r := RingBuffer.popLoop n.toNat rb []
    (some r.1, r.2)

/-- Pushing a whole list of events in order. -/
def pushAll (L : List Ev) (rb : RingBuffer) : RingBuffer :=
  L.foldl RingBuffer.Push rb

/-- Iterating `Pop` `n` times, collecting the returned values in order. -/
def popN : Nat → RingBuffer → List Ev × RingBuffer
  | 0, rb => ([], rb)
  | Nat.succ k, rb =>
    let p := rb.Pop
    let r := popN k p.2
    (p.1 :: r.1, r.2)

example :
    (pushAll [some 0, some 1, some 2, some 3] (NewRingBuffer 3)).GetAll
      = [some 1, some 2, some 3] := by decide

example : (pushAll [some 0, some 1, some 2, some 3] (NewRingBuffer 3)).Count = 3 := by decide

example : (pushAll [some 0, some 1, some 2, some 3] (NewRingBuffer 3)).IsFull = true := by decide

/-! ## Sliding-window buffer (`internal/buffer/sliding_window.go`) -/

/-- `timestampedEvent`: an event pointer plus its insertion time. -/
structure TimestampedEvent where
  event : Ev
  timestamp : Int
  deriving Repr, DecidableEq

/-- State of `buffer.SlidingWindowBuffer`: the ordered slice of
timestamped events, the window size `W` and the size cap `maxSize`. -/
structure SlidingWindowBuffer where
  events : List TimestampedEvent
  windowSize : Int
  maxSize : Nat
  deriving Repr, DecidableEq

/-- `NewSlidingWindowBuffer(windowSize, maxSize)`. -/
def NewSlidingWindowBuffer (windowSize : Int) (maxSize : Nat) : SlidingWindowBuffer :=
  { events := [], windowSize := windowSize, maxSize := maxSize }

/-- The `firstValid` scan of `removeExpired`: the index of the first entry
whose timestamp is `After(cutoffTime)` — i.e. strictly greater than the
cutoff — or the length of the slice when every entry fails the test. -/
def firstValid (cutoff : Int) : List TimestampedEvent → Nat
  | [] => 0
  | te :: rest => if cutoff < te.timestamp then 0 else firstValid cutoff rest + 1

/-- `SlidingWindowBuffer.removeExpired` (lock held, clock read once):
no-op on an empty slice, otherwise drop the `firstValid` prefix relative
to `cutoffTime = now - windowSize`. -/
def SlidingWindowBuffer.removeExpired (swb : SlidingWindowBuffer) (now : Int) :
    SlidingWindowBuffer :=
  if swb.events.isEmpty then swb
  else
    let cutoff := now - swb.windowSize
    { swb with events := swb.events.drop (firstValid cutoff swb.events) }

/-- `SlidingWindowBuffer.Push`: sweep, append the event stamped `now`,
then keep only the newest `maxSize` entries when the length exceeds it. -/
def SlidingWindowBuffer.Push (swb : SlidingWindowBuffer) (event : Ev) (now : Int) :
    SlidingWindowBuffer :=
  let swb := swb.removeExpired now
  let events := swb.events ++ [{ event := event, timestamp := now }]
  if swb.maxSize < events.length then
    { swb with events := events.drop (events.length - swb.maxSize) }
  else
    { swb with events := events }

/-- `SlidingWindowBuffer.GetAll`: sweep, then project the events. -/
def SlidingWindowBuffer.GetAll (swb : SlidingWindowBuffer) (now : Int) :
    List Ev × SlidingWindowBuffer :=
  let swb := swb.removeExpired now
  (swb.events.map (·.event), swb)

/-- `SlidingWindowBuffer.GetBatch(n)`: sweep, clamp `n` down to the length;
`make([]*model.FlightEvent, 0, n)` panics (`none`) when the clamped `n`
is negative, otherwise read the first `n` events without removing them. -/
def SlidingWindowBuffer.GetBatch (swb : SlidingWindowBuffer) (n : Int) (now : Int) :
    Option (List Ev) × SlidingWindowBuffer :=
  let swb := swb.removeExpired now
  let count : Int := (swb.events.length : Int)
  let n := if count < n then count else n
  if n < 0 then (none, swb)
  else (some ((swb.events.take n.toNat).map (·.event)), swb)

/-- `SlidingWindowBuffer.PopBatch(n)`: sweep, clamp `n` down to the
length, return the empty batch when the clamped `n` is `0`; otherwise
`make` panics (`none`) for negative `n`, else remove and return the first
`n` events. -/
def SlidingWindowBuffer.PopBatch (swb : SlidingWindowBuffer) (n : Int) (now : Int) :
    Option (List Ev) × SlidingWindowBuffer :=
  let swb := swb.removeExpired now
  let count : Int := (swb.events.length : Int)
  let n := if count < n then count else n
  if n = 0 then (some [], swb)
  else if n < 0 then (none, swb)
  else
    (some ((swb.events.take n.toNat).map (·.event)),
     { swb with events := swb.events.drop n.toNat })

/-- `SlidingWindowBuffer.Count`: sweep, then the length. -/
def SlidingWindowBuffer.Count (swb : SlidingWindowBuffer) (now : Int) :
    Nat × SlidingWindowBuffer :=
  let swb := swb.removeExpired now
  (swb.events.length, swb)

/-- `SlidingWindowBuffer.IsEmpty`: sweep, then the emptiness test. -/
def SlidingWindowBuffer.IsEmpty (swb : SlidingWindowBuffer) (now : Int) :
    Bool × SlidingWindowBuffer :=
  let swb := swb.removeExpired now
  (swb.events.isEmpty, swb)

/-- `SlidingWindowBuffer.Clear`: reset the slice, no sweep involved. -/
def SlidingWindowBuffer.Clear (swb : SlidingWindowBuffer) : SlidingWindowBuffer :=
  { swb with events := [] }

/-- The backward scan of `CountInLastDuration`, run on the reversed slice:
count while entries are `After(cutoffTime)`, stop at the first that is not. -/
def countFromNewest (cutoff : Int) : List TimestampedEvent → Nat
  | [] => 0
  | te :: rest =>
    if cutoff < te.timestamp then countFromNewest cutoff rest + 1 else 0

/-- `SlidingWindowBuffer.CountInLastDuration(duration)`: a read-locked
backward scan relative to `now - duration`; performs no expiry sweep. -/
def SlidingWindowBuffer.CountInLastDuration (swb : SlidingWindowBuffer)
    (duration : Int) (now : Int) : Nat :=
  countFromNewest (now - duration) swb.events.reverse

/-- `SlidingWindowBuffer.GetEventsInRange(start, end)`: keep events with
timestamp strictly after `start` and strictly before `end`; no sweep. -/
def SlidingWindowBuffer.GetEventsInRange (swb : SlidingWindowBuffer)
    (start stop : Int) : List Ev :=
  (swb.events.filter fun te =>
    decide (start < te.timestamp) && decide (te.timestamp < stop)).map (·.event)

example :
    ((NewSlidingWindowBuffer 10 5).Push (some 7) 0).events
      = [{ event := some 7, timestamp := 0 }] := by decide

example :
    (((NewSlidingWindowBuffer 10 5).Push (some 7) 0).Count 20).1 = 0 := by decide

/-! ## Admission controller (`internal/processor`, token bucket) -/

/-- Modelled from the spec: the token bucket behind `rate.Limiter` of the
vendored `golang.org/x/time/rate` library, whose source is not part of
this repository.  Per the spec's data model and glossary: "a token bucket
with capacity `burst` and refill rate `r` tokens/second"; "available
tokens never exceed `burst`; tokens refill continuously (not in discrete
ticks) based on elapsed time since last check"; "a call succeeds the
instant accumulated tokens reach >= 1".  Time and tokens are rationals;
the bucket starts full. -/
structure TokenBucket where
  rate : ℚ
  burst : ℚ
  tokens : ℚ
  lastTime : ℚ
  deriving Repr, DecidableEq

/-- Modelled from the spec: continuous refill since the last check,
saturating at `burst`. -/
def TokenBucket.advance (tb : TokenBucket) (t : ℚ) : TokenBucket :=
  { tb with tokens := min tb.burst (tb.tokens + tb.rate * (t - tb.lastTime))
            lastTime := t }

/-- Modelled from the spec: `rate.Limiter.Allow` — refill, then consume
one token iff at least one is available. -/
def TokenBucket.allow (tb : TokenBucket) (t : ℚ) : Bool × TokenBucket :=
  let tb := tb.advance t
  if 1 ≤ tb.tokens then (true, { tb with tokens := tb.tokens - 1 })
  else (false, tb)

/-- Modelled from the spec: `rate.Limiter.AllowN` — "atomically reserves
n tokens or none (all-or-nothing)". -/
def TokenBucket.allowN (tb : TokenBucket) (t : ℚ) (n : ℕ) : Bool × TokenBucket :=
  let tb := tb.advance t
  if (n : ℚ) ≤ tb.tokens then (true, { tb with tokens := tb.tokens - n })
  else (false, tb)

/-- Modelled from the spec: `rate.NewLimiter(r, b)` starts with a full
bucket. -/
def newTokenBucket (r b : ℚ) (t : ℚ) : TokenBucket :=
  { rate := r, burst := b, tokens := b, lastTime := t }

/-- State of `processor.RateLimiter`: the bucket plus the configured
numbers and the `processedCount` / `droppedCount` statistics. -/
structure RateLimiter where
  limiter : TokenBucket
  eventsPerSec : ℚ
  burstSize : ℚ
  processedCount : Int
  droppedCount : Int
  deriving Repr, DecidableEq

/-- `NewRateLimiter(eventsPerSecond, burstSize)` at creation time `t`. -/
def NewRateLimiter (eventsPerSecond burstSize : ℚ) (t : ℚ) : RateLimiter :=
  { limiter := newTokenBucket eventsPerSecond burstSize t
    eventsPerSec := eventsPerSecond
    burstSize := burstSize
    processedCount := 0
    droppedCount := 0 }

/-- `RateLimiter.Allow` at time `t`: ask the bucket, then increment the
matching counter. -/
def RateLimiter.Allow (rl : RateLimiter) (t : ℚ) : Bool × RateLimiter :=
  let r := rl.limiter.allow t
  if r.1 then
    (true, { rl with limiter := r.2, processedCount := rl.processedCount + 1 })
  else
    (false, { rl with limiter := r.2, droppedCount := rl.droppedCount + 1 })

/-- `RateLimiter.AllowN(n)` at time `t`: ask the bucket for `n` tokens,
then bump the matching counter by `n`. -/
def RateLimiter.AllowN (rl : RateLimiter) (t : ℚ) (n : ℕ) : Bool × RateLimiter :=
  let r := rl.limiter.allowN t n
  if r.1 then
    (true, { rl with limiter := r.2, processedCount := rl.processedCount + n })
  else
    (false, { rl with limiter := r.2, droppedCount := rl.droppedCount + n })

/-- The counter side effect of `RateLimiter.Wait`: the blocking token
acquisition happens inside the library; on success (`err == nil`) the
`processedCount` is incremented, on cancellation nothing changes. -/
def RateLimiter.WaitEffect (rl : RateLimiter) (success : Bool) : RateLimiter :=
  if success then { rl with processedCount := rl.processedCount + 1 } else rl

/-! ## Event processor (`internal/processor`, channel skeleton) -/

/-- A buffered Go channel as far as `Submit`/`Stop` need it: whether it
has been closed, how many elements are queued, and its capacity. -/
structure GoChan where
  closed : Bool
  queued : Nat
  capacity : Nat
  deriving Repr, DecidableEq

/-- The `EventProcessor` state visible to `Submit` and `Stop`: the
buffered input channel and whether the context has been cancelled
(`ctx.Done()` is a closed channel once `cancel` has run). -/
structure EventProcessor where
  inputChan : GoChan
  ctxDone : Bool
  deriving Repr, DecidableEq

/-- `NewEventProcessor(_, bufferSize)`: open input channel of capacity
`bufferSize`, context not yet cancelled. -/
def NewEventProcessor (bufferSize : Nat) : EventProcessor :=
  { inputChan := { closed := false, queued := 0, capacity := bufferSize }
    ctxDone := false }

/-- What a single `Submit` call can do. -/
inductive SubmitResult where
  | returnsTrue
  | returnsFalse
  | panics
  deriving Repr, DecidableEq

/-- The possible outcomes of `Submit`'s three-way `select`, following the
Go memory and select semantics: a send case is ready when the channel has
buffer space — or when the channel is closed, in which case executing it
panics ("send on closed channel"); a receive from `ctx.Done()` is ready
once the context is cancelled and makes `Submit` return `false`; when no
communication is ready the `default` case returns `false`.  The runtime
picks uniformly among the ready cases, so every listed outcome is
reachable. -/
def EventProcessor.submitOutcomes (ep : EventProcessor) : List SubmitResult :=
  let sendReady := ep.inputChan.closed || decide (ep.inputChan.queued < ep.inputChan.capacity)
  let sendOutcome : List SubmitResult :=
    if ep.inputChan.closed then [SubmitResult.panics] else [SubmitResult.returnsTrue]
  let doneOutcome : List SubmitResult :=
    if ep.ctxDone then [SubmitResult.returnsFalse] else []
  if sendReady then sendOutcome ++ doneOutcome
  else if ep.ctxDone then doneOutcome
  else [SubmitResult.returnsFalse]

/-- `EventProcessor.Stop()`: cancel the context, wait out the loop, then
`close(ep.inputChan)` (and the output channel, which `Submit` ignores). -/
def EventProcessor.Stop (ep : EventProcessor) : EventProcessor :=
  { ep with ctxDone := true, inputChan := { ep.inputChan with closed := true } }

example :
    ((NewEventProcessor 4).Stop).submitOutcomes
      = [SubmitResult.panics, SubmitResult.returnsFalse] := by decide

/-- `m` consecutive `Allow` calls at the same instant `t`: the number of
admitted calls and the final bucket state. -/
def allowTimes (tb : TokenBucket) (t : ℚ) : Nat → ℕ × TokenBucket
  | 0 => (0, tb)
  | m + 1 =>
    ((if (tb.allow t).1 then 1 else 0) + (allowTimes (tb.allow t).2 t m).1,
     (allowTimes (tb.allow t).2 t m).2)

/-! ## List and modular-arithmetic helpers -/

theorem getD_set_self {α : Type} (l : List α) (i : Nat) (a d : α) (h : i < l.length) :
    (l.set i a).getD i d = a := by
  simp [List.getD_eq_getElem?_getD, List.getElem?_set, h]

theorem getD_set_other {α : Type} (l : List α) {i j : Nat} (a d : α) (h : i ≠ j) :
    (l.set i a).getD j d = l.getD j d := by
  simp [List.getD_eq_getElem?_getD, List.getElem?_set, h]

theorem getD_ge_len {α : Type} (L : List α) {j : Nat} (d : α) (h : L.length ≤ j) :
    L.getD j d = d := by
  simp [List.getD_eq_getElem?_getD, List.getElem?_eq_none h]

theorem getD_append_len {α : Type} (L : List α) (e d : α) :
    (L ++ [e]).getD L.length d = e := by
  have h : L.length < (L ++ [e]).length := by simp
  rw [List.getD_eq_getElem _ _ h, List.getElem_append_right (Nat.le_refl _)]
  simp

theorem getD_snoc_lt {α : Type} (L : List α) (e d : α) {j : Nat} (h : j < L.length) :
    (L ++ [e]).getD j d = L.getD j d :=
  List.getD_append _ _ _ _ h

/-- Adding a nonzero `m < C` to `k` changes the residue mod `C`. -/
theorem mod_add_ne {C k m : Nat} (hm0 : 0 < m) (hmC : m < C) :
    (k + m) % C ≠ k % C := by
  intro h
  have hmod : k ≡ k + m [MOD C] := h.symm
  have hdvd : C ∣ (k + m) - k := (Nat.modEq_iff_dvd' (Nat.le_add_right k m)).mp hmod
  have hCm : C ∣ m := by simpa using hdvd
  exact absurd (Nat.le_of_dvd hm0 hCm) (Nat.not_le.mpr hmC)

/-! ## Ring buffer: reachable-state characterization under pushes -/

/-- The exact state of a ring buffer of capacity `C` after pushing the
list `L` into a fresh buffer: `head` is `|L| % C`; while `|L| < C` the
buffer is un-wrapped (`tail = 0`, slot `j` holds the `j`-th push); once
`|L| ≥ C` it is full with `tail = head` and slot `(|L| + i) % C` holding
push number `|L| - C + i`. -/
def RBrep (C : Nat) (L : List Ev) (st : RingBuffer) : Prop :=
  st.size = C ∧ st.buffer.length = C ∧ st.head = L.length % C ∧
  ((L.length < C ∧ st.tail = 0 ∧ st.count = L.length ∧ st.isFull = false ∧
      ∀ j, j < C → st.buffer.getD j none = L.getD j none) ∨
   (C ≤ L.length ∧ st.tail = L.length % C ∧ st.count = C ∧ st.isFull = true ∧
      ∀ i, i < C → st.buffer.getD ((L.length + i) % C) none = L.getD (L.length - C + i) none))

theorem RBrep_init {C : Nat} (hC : 0 < C) : RBrep C [] (NewRingBuffer C) := by
  refine ⟨rfl, by simp [NewRingBuffer], by simp [NewRingBuffer],
    Or.inl ⟨hC, rfl, rfl, rfl, ?_⟩⟩
  intro j hj
  simp [NewRingBuffer, List.getD_eq_getElem?_getD, List.getElem?_replicate, hj]

theorem RBrep_push {C : Nat} {L : List Ev} {st : RingBuffer} (hC : 0 < C)
    (h : RBrep C L st) (e : Ev) : RBrep C (L ++ [e]) (st.Push e) := by
  obtain ⟨hsz, hlen, hhead, hcase⟩ := h
  have hlenL' : (L ++ [e]).length = L.length + 1 := by simp
  rcases hcase with ⟨hkC, htail, hcount, hfull, hslot⟩ | ⟨hkC, htail, hcount, hfull, hslot⟩
  · -- not yet full
    have hkmod : L.length % C = L.length := Nat.mod_eq_of_lt hkC
    have hheadk : st.head = L.length := by rw [hhead, hkmod]
    by_cases hsucc : L.length + 1 < C
    · -- stays not-full
      have hcond : (((st.head + 1) % st.size == st.tail)) = false := by
        rw [hsz, hheadk, htail, Nat.mod_eq_of_lt hsucc]
        simp
      have hPush : st.Push e =
          { st with buffer := st.buffer.set st.head e,
                    head := (st.head + 1) % st.size,
                    count := st.count + 1 } := by
        simp [RingBuffer.Push, hfull, hcond]
      rw [hPush]
      refine ⟨hsz, ?_, ?_, Or.inl ⟨by omega, htail, ?_, hfull, ?_⟩⟩
      · show (st.buffer.set st.head e).length = C
        simp [hlen]
      · show (st.head + 1) % st.size = (L ++ [e]).length % C
        rw [hsz, hheadk, hlenL']
      · show st.count + 1 = (L ++ [e]).length
        omega
      · intro j hj
        show (st.buffer.set st.head e).getD j none = (L ++ [e]).getD j none
        by_cases hje : j = L.length
        · subst hje
          have h1 : (st.buffer.set st.head e).getD L.length none = e := by
            rw [← hheadk]
            exact getD_set_self _ _ _ _ (by omega)
          rw [h1, getD_append_len]
        · have hne : st.head ≠ j := by omega
          rw [getD_set_other _ _ _ hne, hslot j hj]
          rcases Nat.lt_or_ge j L.length with hjk | hjk
          · rw [getD_snoc_lt _ _ _ hjk]
          · rw [getD_ge_len L _ (by omega),
              getD_ge_len (L ++ [e]) _ (by rw [hlenL']; omega)]
    · -- becomes full: L.length + 1 = C
      have hkeq : L.length + 1 = C := by omega
      have hcond : (((st.head + 1) % st.size == st.tail)) = true := by
        rw [hsz, hheadk, htail, hkeq, Nat.mod_self]
        simp
      have hPush : st.Push e =
          { st with buffer := st.buffer.set st.head e,
                    head := (st.head + 1) % st.size,
                    count := st.count + 1, isFull := true } := by
        simp [RingBuffer.Push, hfull, hcond]
      rw [hPush]
      refine ⟨hsz, ?_, ?_, Or.inr ⟨by omega, ?_, ?_, rfl, ?_⟩⟩
      · show (st.buffer.set st.head e).length = C
        simp [hlen]
      · show (st.head + 1) % st.size = (L ++ [e]).length % C
        rw [hsz, hheadk, hlenL', hkeq, Nat.mod_self]
      · show st.tail = (L ++ [e]).length % C
        rw [htail, hlenL', hkeq, Nat.mod_self]
      · show st.count + 1 = C
        omega
      · intro i hi
        show (st.buffer.set st.head e).getD (((L ++ [e]).length + i) % C) none
            = (L ++ [e]).getD ((L ++ [e]).length - C + i) none
        have hmod : ((L ++ [e]).length + i) % C = i := by
          rw [hlenL', hkeq, Nat.add_comm C i, Nat.add_mod_right, Nat.mod_eq_of_lt hi]
        have hidx : (L ++ [e]).length - C + i = i := by omega
        rw [hmod, hidx]
        by_cases hje : i = L.length
        · subst hje
          have h1 : (st.buffer.set st.head e).getD L.length none = e := by
            rw [← hheadk]
            exact getD_set_self _ _ _ _ (by omega)
          rw [h1, getD_append_len]
        · have hne : st.head ≠ i := by omega
          rw [getD_set_other _ _ _ hne, hslot i hi, getD_snoc_lt _ _ _ (by omega)]
  · -- already full
    have hPush : st.Push e =
        { st with buffer := st.buffer.set st.head e,
                  head := (st.head + 1) % st.size,
                  tail := (st.tail + 1) % st.size } := by
      simp [RingBuffer.Push, hfull]
    rw [hPush]
    refine ⟨hsz, ?_, ?_, Or.inr ⟨by omega, ?_, hcount, hfull, ?_⟩⟩
    · show (st.buffer.set st.head e).length = C
      simp [hlen]
    · show (st.head + 1) % st.size = (L ++ [e]).length % C
      rw [hsz, hhead, hlenL', Nat.mod_add_mod]
    · show (st.tail + 1) % st.size = (L ++ [e]).length % C
      rw [hsz, htail, hlenL', Nat.mod_add_mod]
    · intro i hi
      show (st.buffer.set st.head e).getD (((L ++ [e]).length + i) % C) none
          = (L ++ [e]).getD ((L ++ [e]).length - C + i) none
      by_cases hie : i = C - 1
      · subst hie
        have hmod : ((L ++ [e]).length + (C - 1)) % C = L.length % C := by
          have h2 : (L ++ [e]).length + (C - 1) = L.length + C := by rw [hlenL']; omega
          rw [h2, Nat.add_mod_right]
        have hidx : (L ++ [e]).length - C + (C - 1) = L.length := by rw [hlenL']; omega
        rw [hmod, hidx, ← hhead]
        have h1 : (st.buffer.set st.head e).getD st.head none = e :=
          getD_set_self _ _ _ _ (by rw [hlen, hhead]; exact Nat.mod_lt _ hC)
        rw [h1, getD_append_len]
      · have hi1 : i + 1 < C := by omega
        have hmod : ((L ++ [e]).length + i) % C = (L.length + (i + 1)) % C := by
          rw [hlenL']
          congr 1
          omega
        have hne2 : (L.length + (i + 1)) % C ≠ L.length % C := mod_add_ne (by omega) hi1
        have hne : st.head ≠ (L.length + (i + 1)) % C := by
          rw [hhead]
          exact fun hx => hne2 hx.symm
        have hidx : (L ++ [e]).length - C + i = L.length - C + (i + 1) := by
          rw [hlenL']
          omega
        rw [hmod, hidx, getD_set_other _ _ _ hne, hslot (i + 1) hi1,
          getD_snoc_lt _ _ _ (by omega)]

/-- In a full reachable state, `GetAll` reads the slots from `tail` to the
array end and then from the start to `head`, which is exactly the last `C`
pushed events in push order. -/
theorem GetAll_of_full {C : Nat} {L : List Ev} {st : RingBuffer} (hC : 0 < C)
    (h : RBrep C L st) (hk : C ≤ L.length) :
    st.GetAll = L.drop (L.length - C) := by
  obtain ⟨hsz, hlen, hhead, hcase⟩ := h
  rcases hcase with ⟨hkC, _⟩ | ⟨_, htail, hcount, hfull, hslot⟩
  · omega
  have hTlt : L.length % C < C := Nat.mod_lt _ hC
  have hempty : st.IsEmpty = false := by
    simp [RingBuffer.IsEmpty, hfull]
  have hga : st.GetAll =
      ((List.range' st.tail (st.size - st.tail)).map fun i => st.buffer.getD i none)
        ++ ((List.range st.head).map fun i => st.buffer.getD i none) := by
    simp [RingBuffer.GetAll, hempty, hfull]
  rw [hga]
  have hlen1 : ((List.range' st.tail (st.size - st.tail)).map
      fun i => st.buffer.getD i none).length = C - L.length % C := by
    simp [List.length_range', hsz, htail]
  apply List.ext_getElem
  · simp only [List.length_append, List.length_map, List.length_range',
      List.length_range, List.length_drop, hsz, hhead, htail]
    omega
  · intro n h₁ h₂
    have hn : n < C := by
      simp only [List.length_append, List.length_map, List.length_range',
        List.length_range, hsz, hhead, htail] at h₁
      omega
    have hdrop : (L.drop (L.length - C))[n] = L.getD (L.length - C + n) none := by
      rw [List.getElem_drop]
      exact (List.getD_eq_getElem _ _ (by omega)).symm
    rw [hdrop, ← hslot n hn]
    by_cases hfirst : n < C - L.length % C
    · rw [List.getElem_append_left (by rw [hlen1]; omega)]
      rw [List.getElem_map, List.getElem_range']
      have hp : (L.length + n) % C = st.tail + 1 * n := by
        rw [htail, one_mul, ← Nat.mod_add_mod, Nat.mod_eq_of_lt (by omega)]
      rw [hp]
    · rw [List.getElem_append_right (by rw [hlen1]; omega)]
      rw [List.getElem_map, List.getElem_range, hlen1]
      have hp : (L.length + n) % C = n - (C - L.length % C) := by
        have h3 : (L.length + n) % C = (L.length % C + n) % C :=
          (Nat.mod_add_mod _ _ _).symm
        have h4 : L.length % C + n = (L.length % C + n - C) + C := by omega
        rw [h3, h4, Nat.add_mod_right, Nat.mod_eq_of_lt (by omega)]
        omega
      rw [hp]

theorem RBrep_pushAll {C : Nat} (hC : 0 < C) (L : List Ev) :
    RBrep C L (pushAll L (NewRingBuffer C)) := by
  induction L using List.reverseRecOn with
  | nil => exact RBrep_init hC
  | append_singleton L e ih =>
    have : pushAll (L ++ [e]) (NewRingBuffer C) =
        (pushAll L (NewRingBuffer C)).Push e := by
      simp [pushAll, List.foldl_append]
    rw [this]
    exact RBrep_push hC ih e

/-- C1: for every ring buffer of capacity `C ≥ 1` and every sequence of
`k ≥ C` pushed events, afterwards `Count() = C`, `IsFull() = true`, and
`GetAll()` returns exactly the last `C` pushed events in push order. -/
theorem ring_push_overflow_keeps_last_C (C : Nat) (L : List Ev)
    (hC : 1 ≤ C) (hk : C ≤ L.length) :
    (pushAll L (NewRingBuffer C)).Count = C ∧
    (pushAll L (NewRingBuffer C)).IsFull = true ∧
    (pushAll L (NewRingBuffer C)).GetAll = L.drop (L.length - C) := by
  have h := RBrep_pushAll hC L
  obtain ⟨hsz, hlen, hhead, hcase⟩ := h
  rcases hcase with ⟨hkC, _⟩ | ⟨_, htail, hcount, hfull, hslot⟩
  · omega
  refine ⟨?_, hfull, GetAll_of_full hC (RBrep_pushAll hC L) hk⟩
  simp [RingBuffer.Count, hfull, hsz]

/-- Draining `m` pops from a non-full state whose `count` is at least `m`:
the pops return the first `m` circular slots from `tail`, `tail` advances
by `m`, `count` drops by `m`, the drained slots become `nil`, and slots
that already held `nil` stay `nil`. -/
theorem popN_drain {C : Nat} (hC : 0 < C) :
    ∀ (m : Nat) (st : RingBuffer) (g : Nat → Ev),
      st.isFull = false → st.size = C → st.buffer.length = C → st.tail < C →
      m ≤ C → m ≤ st.count →
      (∀ i, i < m → st.buffer.getD ((st.tail + i) % C) none = g i) →
      (popN m st).1 = (List.range m).map g ∧
      (popN m st).2.size = C ∧
      (popN m st).2.buffer.length = C ∧
      (popN m st).2.head = st.head ∧
      (popN m st).2.isFull = false ∧
      (popN m st).2.tail = (st.tail + m) % C ∧
      (popN m st).2.count = st.count - m ∧
      (∀ i, i < m → (popN m st).2.buffer.getD ((st.tail + i) % C) none = none) ∧
      (∀ p, st.buffer.getD p none = none → (popN m st).2.buffer.getD p none = none) := by
  intro m
  induction m with
  | zero =>
    intro st g hfull hsz hlen htl _ _ _
    refine ⟨by simp [popN], hsz, hlen, rfl, hfull, ?_, by simp [popN], ?_, ?_⟩
    · show st.tail = (st.tail + 0) % C
      rw [Nat.add_zero, Nat.mod_eq_of_lt htl]
    · intro i hi
      omega
    · intro p hp
      exact hp
  | succ m ih =>
    intro st g hfull hsz hlen htl hmC hmcnt hslot
    have h0 : (st.count == 0) = false := by
      simp only [beq_eq_false_iff_ne, ne_eq]
      omega
    have hPop : st.Pop = (st.buffer.getD st.tail none,
        { st with buffer := st.buffer.set st.tail none,
                  tail := (st.tail + 1) % st.size,
                  count := st.count - 1 }) := by
      simp [RingBuffer.Pop, hfull, h0]
    have hstep : popN (m + 1) st = (st.buffer.getD st.tail none ::
        (popN m (st.Pop).2).1, (popN m (st.Pop).2).2) := by
      simp [popN, hPop]
    set st₁ : RingBuffer :=
      { st with buffer := st.buffer.set st.tail none,
                tail := (st.tail + 1) % st.size,
                count := st.count - 1 } with hst₁
    have hPop2 : (st.Pop).2 = st₁ := by rw [hPop]
    have htl1 : st₁.tail < C := by
      show (st.tail + 1) % st.size < C
      rw [hsz]
      exact Nat.mod_lt _ hC
    have hlen1 : st₁.buffer.length = C := by
      show (st.buffer.set st.tail none).length = C
      simp [hlen]
    have hpos : ∀ i, i < m → (st₁.tail + i) % C = (st.tail + (i + 1)) % C := by
      intro i _
      show ((st.tail + 1) % st.size + i) % C = (st.tail + (i + 1)) % C
      rw [hsz, Nat.mod_add_mod]
      congr 1
      omega
    have hslot1 : ∀ i, i < m → st₁.buffer.getD ((st₁.tail + i) % C) none
        = g (i + 1) := by
      intro i hi
      rw [hpos i hi]
      have hne : st.tail ≠ (st.tail + (i + 1)) % C := by
        intro hx
        have h5 := mod_add_ne (C := C) (k := st.tail) (m := i + 1) (by omega) (by omega)
        rw [Nat.mod_eq_of_lt htl] at h5
        exact h5 hx.symm
      show (st.buffer.set st.tail none).getD ((st.tail + (i + 1)) % C) none = g (i + 1)
      rw [getD_set_other _ _ _ hne]
      exact hslot (i + 1) (by omega)
    have hiha := ih st₁ (fun i => g (i + 1)) hfull hsz hlen1 htl1 (by omega)
      (by show m ≤ st.count - 1; omega) hslot1
    obtain ⟨hv, hsz2, hlen2, hhd2, hfull2, htl2, hcnt2, hclr2, hpres2⟩ := hiha
    have hclear1 : st₁.buffer.getD st.tail none = none := by
      show (st.buffer.set st.tail none).getD st.tail none = none
      exact getD_set_self _ _ _ _ (by omega)
    have hpres1 : ∀ p, st.buffer.getD p none = none →
        st₁.buffer.getD p none = none := by
      intro p hp
      show (st.buffer.set st.tail none).getD p none = none
      by_cases hpe : st.tail = p
      · subst hpe
        exact getD_set_self _ _ _ _ (by omega)
      · rw [getD_set_other _ _ _ hpe]
        exact hp
    refine ⟨?_, ?_, ?_, ?_, ?_, ?_, ?_, ?_, ?_⟩
    · rw [hstep]
      show st.buffer.getD st.tail none :: (popN m (st.Pop).2).1
          = (List.range (m + 1)).map g
      rw [hPop2, hv, List.range_succ_eq_map, List.map_cons, List.map_map]
      have hg0 : st.buffer.getD st.tail none = g 0 := by
        have := hslot 0 (by omega)
        rwa [Nat.add_zero, Nat.mod_eq_of_lt htl] at this
      rw [hg0]
      rfl
    · rw [hstep]; exact hPop2 ▸ hsz2
    · rw [hstep]; exact hPop2 ▸ hlen2
    · rw [hstep]
      show (popN m (st.Pop).2).2.head = st.head
      rw [hPop2, hhd2]
    · rw [hstep]; exact hPop2 ▸ hfull2
    · rw [hstep]
      show (popN m (st.Pop).2).2.tail = (st.tail + (m + 1)) % C
      rw [hPop2, htl2]
      show ((st.tail + 1) % st.size + m) % C = (st.tail + (m + 1)) % C
      rw [hsz, Nat.mod_add_mod]
      congr 1
      omega
    · rw [hstep]
      show (popN m (st.Pop).2).2.count = st.count - (m + 1)
      rw [hPop2, hcnt2]
      show st.count - 1 - m = st.count - (m + 1)
      omega
    · rw [hstep]
      intro i hi
      show (popN m (st.Pop).2).2.buffer.getD ((st.tail + i) % C) none = none
      rw [hPop2]
      rcases Nat.eq_zero_or_pos i with hi0 | hipos
      · subst hi0
        rw [Nat.add_zero, Nat.mod_eq_of_lt htl]
        exact hpres2 _ hclear1
      · obtain ⟨i', rfl⟩ : ∃ i', i = i' + 1 := ⟨i - 1, by omega⟩
        have := hclr2 i' (by omega)
        rwa [hpos i' (by omega)] at this
    · rw [hstep]
      intro p hp
      show (popN m (st.Pop).2).2.buffer.getD p none = none
      rw [hPop2]
      exact hpres2 p (hpres1 p hp)

/-- C9 (implicit): popping from a full ring buffer clears the `isFull`
flag without decrementing the `count` field; consequently, after a
capacity-`C` buffer has become full, `C` pops return all `C` events, yet
`Count()` is `1` and `IsEmpty()` is `false`, and one further `Pop()`
returns `nil` while still advancing `tail` and decrementing `count`. -/
theorem ring_pop_full_count_bug (C : Nat) (L : List Ev)
    (hC : 1 ≤ C) (hk : C ≤ L.length) :
    ((pushAll L (NewRingBuffer C)).Pop).2.isFull = false ∧
    ((pushAll L (NewRingBuffer C)).Pop).2.count = (pushAll L (NewRingBuffer C)).count ∧
    (popN C (pushAll L (NewRingBuffer C))).1 = (pushAll L (NewRingBuffer C)).GetAll ∧
    (popN C (pushAll L (NewRingBuffer C))).2.Count = 1 ∧
    (popN C (pushAll L (NewRingBuffer C))).2.IsEmpty = false ∧
    (popN C (pushAll L (NewRingBuffer C))).2.count = 1 ∧
    ((popN C (pushAll L (NewRingBuffer C))).2.Pop).1 = none ∧
    ((popN C (pushAll L (NewRingBuffer C))).2.Pop).2.tail
      = ((popN C (pushAll L (NewRingBuffer C))).2.tail + 1) % C ∧
    ((popN C (pushAll L (NewRingBuffer C))).2.Pop).2.count = 0 := by
  obtain ⟨C', rfl⟩ : ∃ C', C = C' + 1 := ⟨C - 1, by omega⟩
  obtain ⟨hsz, hlen, hhead, hcase⟩ := RBrep_pushAll hC L
  rcases hcase with ⟨hkC, _⟩ | ⟨_, htail, hcount, hfull, hslot⟩
  · omega
  set st₀ := pushAll L (NewRingBuffer (C' + 1)) with hst₀
  have hT : st₀.tail < C' + 1 := by
    rw [htail]
    exact Nat.mod_lt _ hC
  have hPop0 : st₀.Pop = (st₀.buffer.getD st₀.tail none,
      { st₀ with buffer := st₀.buffer.set st₀.tail none,
                 tail := (st₀.tail + 1) % st₀.size,
                 isFull := false }) := by
    simp [RingBuffer.Pop, hfull]
  set st₁ : RingBuffer :=
    { st₀ with buffer := st₀.buffer.set st₀.tail none,
               tail := (st₀.tail + 1) % st₀.size,
               isFull := false } with hst₁
  have hslot1 : ∀ i, i < C' →
      st₁.buffer.getD ((st₁.tail + i) % (C' + 1)) none
        = L.getD (L.length - (C' + 1) + (i + 1)) none := by
    intro i hi
    have hpos : (st₁.tail + i) % (C' + 1) = (L.length + (i + 1)) % (C' + 1) := by
      show ((st₀.tail + 1) % st₀.size + i) % (C' + 1) = (L.length + (i + 1)) % (C' + 1)
      rw [hsz, Nat.mod_add_mod, htail]
      have h7 : L.length % (C' + 1) + 1 + i = L.length % (C' + 1) + (i + 1) := by omega
      rw [h7, Nat.mod_add_mod]
    have hne : st₀.tail ≠ (L.length + (i + 1)) % (C' + 1) := by
      rw [htail]
      exact fun hx => mod_add_ne (by omega) (by omega) hx.symm
    rw [hpos]
    show (st₀.buffer.set st₀.tail none).getD ((L.length + (i + 1)) % (C' + 1)) none = _
    rw [getD_set_other _ _ _ hne]
    exact hslot (i + 1) (by omega)
  have hdrain := popN_drain hC C' st₁
    (fun i => L.getD (L.length - (C' + 1) + (i + 1)) none)
    rfl hsz
    (by show (st₀.buffer.set st₀.tail none).length = C' + 1; simp [hlen])
    (by show (st₀.tail + 1) % st₀.size < C' + 1; rw [hsz]; exact Nat.mod_lt _ hC)
    (by omega)
    (by show C' ≤ st₀.count; omega)
    hslot1
  obtain ⟨hv, hsz2, hlen2, hhd2, hfull2, htl2, hcnt2, hclr2, hpres2⟩ := hdrain
  have hcntD : (popN C' st₁).2.count = 1 := by
    rw [hcnt2]
    show st₀.count - C' = 1
    omega
  have htlD : (popN C' st₁).2.tail = st₀.tail := by
    rw [htl2]
    show ((st₀.tail + 1) % st₀.size + C') % (C' + 1) = st₀.tail
    rw [hsz, Nat.mod_add_mod]
    have h8 : st₀.tail + 1 + C' = st₀.tail + (C' + 1) := by omega
    rw [h8, Nat.add_mod_right, Nat.mod_eq_of_lt hT]
  have hclearD : (popN C' st₁).2.buffer.getD st₀.tail none = none := by
    apply hpres2
    show (st₀.buffer.set st₀.tail none).getD st₀.tail none = none
    exact getD_set_self _ _ _ _ (by omega)
  have hstep : popN (C' + 1) st₀ = (st₀.buffer.getD st₀.tail none ::
      (popN C' st₁).1, (popN C' st₁).2) := by
    simp [popN, hPop0]
  have he₀ : st₀.buffer.getD st₀.tail none = L.getD (L.length - (C' + 1)) none := by
    have h6 := hslot 0 (by omega)
    rw [Nat.add_zero, Nat.add_zero] at h6
    rwa [← htail] at h6
  have hvals : st₀.buffer.getD st₀.tail none ::
      (List.range C').map (fun i => L.getD (L.length - (C' + 1) + (i + 1)) none)
      = L.drop (L.length - (C' + 1)) := by
    apply List.ext_getElem
    · simp
      omega
    · intro n h₁ h₂
      have hn : n < C' + 1 := by
        simpa using h₁
      rw [List.getElem_drop]
      cases n with
      | zero =>
        simp only [List.getElem_cons_zero]
        exact he₀.trans (List.getD_eq_getElem _ _ (by omega))
      | succ j =>
        simp only [List.getElem_cons_succ]
        rw [List.getElem_map, List.getElem_range]
        exact List.getD_eq_getElem _ _ (by omega)
  have h0D : ((popN C' st₁).2.count == 0) = false := by
    simp only [beq_eq_false_iff_ne, ne_eq]
    omega
  have hPopD : ((popN C' st₁).2).Pop = ((popN C' st₁).2.buffer.getD (popN C' st₁).2.tail none,
      { (popN C' st₁).2 with
          buffer := (popN C' st₁).2.buffer.set (popN C' st₁).2.tail none,
          tail := ((popN C' st₁).2.tail + 1) % (popN C' st₁).2.size,
          count := (popN C' st₁).2.count - 1 }) := by
    simp [RingBuffer.Pop, hfull2, h0D]
  refine ⟨?_, ?_, ?_, ?_, ?_, ?_, ?_, ?_, ?_⟩
  · rw [hPop0]
  · rw [hPop0]
  · rw [hstep]
    show st₀.buffer.getD st₀.tail none :: (popN C' st₁).1 = st₀.GetAll
    rw [hv, GetAll_of_full hC (RBrep_pushAll hC L) hk]
    exact hvals
  · rw [hstep]
    show ((popN C' st₁).2).Count = 1
    simp [RingBuffer.Count, hfull2, hcntD]
  · rw [hstep]
    show ((popN C' st₁).2).IsEmpty = false
    simp [RingBuffer.IsEmpty, hcntD]
  · rw [hstep]
    exact hcntD
  · rw [hstep]
    show (((popN C' st₁).2).Pop).1 = none
    rw [hPopD]
    show (popN C' st₁).2.buffer.getD (popN C' st₁).2.tail none = none
    rw [htlD]
    exact hclearD
  · rw [hstep]
    show (((popN C' st₁).2).Pop).2.tail = ((popN C' st₁).2.tail + 1) % (C' + 1)
    rw [hPopD]
    show ((popN C' st₁).2.tail + 1) % (popN C' st₁).2.size
        = ((popN C' st₁).2.tail + 1) % (C' + 1)
    rw [hsz2]
  · rw [hstep]
    show (((popN C' st₁).2).Pop).2.count = 0
    rw [hPopD]
    show (popN C' st₁).2.count - 1 = 0
    omega

/-- Witness for C9: a capacity-2 buffer made full by two pushes, then
fully drained: the first pop leaves `count` at 2, two pops return both
events, `Count()` then reads 1 with `IsEmpty()` false, and a third pop
returns `nil` while advancing `tail` and decrementing `count`. -/
theorem ring_pop_full_count_bug_witness :
    ((pushAll [some 1, some 2] (NewRingBuffer 2)).Pop).2.isFull = false ∧
    ((pushAll [some 1, some 2] (NewRingBuffer 2)).Pop).2.count
      = (pushAll [some 1, some 2] (NewRingBuffer 2)).count ∧
    (popN 2 (pushAll [some 1, some 2] (NewRingBuffer 2))).1
      = (pushAll [some 1, some 2] (NewRingBuffer 2)).GetAll ∧
    (popN 2 (pushAll [some 1, some 2] (NewRingBuffer 2))).2.Count = 1 ∧
    (popN 2 (pushAll [some 1, some 2] (NewRingBuffer 2))).2.IsEmpty = false ∧
    (popN 2 (pushAll [some 1, some 2] (NewRingBuffer 2))).2.count = 1 ∧
    ((popN 2 (pushAll [some 1, some 2] (NewRingBuffer 2))).2.Pop).1 = none ∧
    ((popN 2 (pushAll [some 1, some 2] (NewRingBuffer 2))).2.Pop).2.tail
      = ((popN 2 (pushAll [some 1, some 2] (NewRingBuffer 2))).2.tail + 1) % 2 ∧
    ((popN 2 (pushAll [some 1, some 2] (NewRingBuffer 2))).2.Pop).2.count = 0 :=
  ring_pop_full_count_bug 2 [some 1, some 2] (by decide) (by decide)

/-! ## Sliding-window sweep lemmas -/

/-- Dropping the `firstValid` prefix is dropping while the timestamp is
at or before the cutoff. -/
theorem drop_firstValid (cutoff : Int) (l : List TimestampedEvent) :
    l.drop (firstValid cutoff l)
      = l.dropWhile (fun te => decide (te.timestamp ≤ cutoff)) := by
  induction l with
  | nil => rfl
  | cons a l ih =>
    by_cases h : cutoff < a.timestamp
    · have h2 : (decide (a.timestamp ≤ cutoff)) = false := by
        simp
        omega
      simp [firstValid, h, List.dropWhile_cons, h2]
    · have h2 : (decide (a.timestamp ≤ cutoff)) = true := by
        simp
        omega
      simp [firstValid, h, List.dropWhile_cons, h2, ih]

/-- The sweep leaves exactly the entries after the maximal expired
prefix; entries at or before the cutoff are dropped from the front. -/
theorem removeExpired_events_eq (swb : SlidingWindowBuffer) (now : Int) :
    (swb.removeExpired now).events
      = swb.events.dropWhile (fun te => decide (te.timestamp ≤ now - swb.windowSize)) := by
  unfold SlidingWindowBuffer.removeExpired
  split
  · next h =>
    rw [List.isEmpty_iff.mp h]
    rfl
  · exact drop_firstValid _ _

theorem removeExpired_windowSize (swb : SlidingWindowBuffer) (now : Int) :
    (swb.removeExpired now).windowSize = swb.windowSize := by
  unfold SlidingWindowBuffer.removeExpired
  split <;> rfl

theorem removeExpired_maxSize (swb : SlidingWindowBuffer) (now : Int) :
    (swb.removeExpired now).maxSize = swb.maxSize := by
  unfold SlidingWindowBuffer.removeExpired
  split <;> rfl

/-- On a time-ordered list, dropping the prefix of entries at or before
the cutoff is the same as filtering for entries strictly after it. -/
theorem dropWhile_le_filter_of_sorted (cutoff : Int) (l : List TimestampedEvent)
    (hl : l.Pairwise fun a b => a.timestamp ≤ b.timestamp) :
    l.dropWhile (fun te => decide (te.timestamp ≤ cutoff))
      = l.filter (fun te => decide (cutoff < te.timestamp)) := by
  induction l with
  | nil => rfl
  | cons a l ih =>
    obtain ⟨ha, hl'⟩ := List.pairwise_cons.mp hl
    by_cases h : cutoff < a.timestamp
    · have h2 : decide (a.timestamp ≤ cutoff) = false := by
        simp
        omega
      have h3 : decide (cutoff < a.timestamp) = true := by simp [h]
      have h4 : l.filter (fun te => decide (cutoff < te.timestamp)) = l :=
        List.filter_eq_self.mpr fun b hb => by
          have h5 := ha b hb
          simp
          omega
      simp [List.dropWhile_cons, h2, List.filter_cons, h3, h4]
    · have h2 : decide (a.timestamp ≤ cutoff) = true := by
        simp
        omega
      have h3 : decide (cutoff < a.timestamp) = false := by simp [h]
      simp [List.dropWhile_cons, h2, List.filter_cons, h3, ih hl']

/-- C6 counterexample: an entry whose age is exactly the window `W` IS
treated as expired, contrary to the claim.  With `W = 10` and a single
entry at `t = 0`, the sweep at `now = 10` (cutoff `0`, the entry's exact
timestamp) removes it. -/
theorem removeExpired_boundary_entry_removed :
    (SlidingWindowBuffer.removeExpired
      { events := [{ event := some 1, timestamp := 0 }], windowSize := 10, maxSize := 5 }
      10).events = [] ∧
    (10 : Int) - ({ event := some 1, timestamp := 0 } : TimestampedEvent).timestamp
      = 10 := by decide

/-- C6 (amended): for a time-ordered buffer, the expiry sweep removes a
maximal prefix of expired entries and retains exactly the entries whose
timestamp is strictly after the cutoff `now - W`; an entry exactly at the
cutoff (age exactly `W`) is treated as expired and removed. -/
theorem removeExpired_keeps_strictly_newer (swb : SlidingWindowBuffer) (now : Int)
    (hsorted : swb.events.Pairwise fun a b => a.timestamp ≤ b.timestamp) :
    (swb.removeExpired now).events
      = swb.events.filter (fun te => decide (now - swb.windowSize < te.timestamp)) := by
  rw [removeExpired_events_eq, dropWhile_le_filter_of_sorted _ _ hsorted]

/-- Witness for the amended C6: a two-entry sorted buffer with `W = 3`
swept at `now = 6` (cutoff `3`) keeps exactly the entry at `t = 5`. -/
theorem removeExpired_keeps_strictly_newer_witness :
    ([{ event := some 1, timestamp := 0 }, { event := some 2, timestamp := 5 }]
      : List TimestampedEvent).Pairwise (fun a b => a.timestamp ≤ b.timestamp) ∧
    (SlidingWindowBuffer.removeExpired
      { events := [{ event := some 1, timestamp := 0 }, { event := some 2, timestamp := 5 }]
        windowSize := 3, maxSize := 5 } 6).events
      = [{ event := some 2, timestamp := 5 }] := by
  refine ⟨by decide, ?_⟩
  rw [removeExpired_keeps_strictly_newer _ _ (by decide)]
  rfl

/-- The observation invariant of the sliding-window buffer: every
retained entry has age at most `W` at observation time `now`, and at most
`M` entries are retained. -/
def SWInv (W : Int) (M : Nat) (now : Int) (st : SlidingWindowBuffer) : Prop :=
  (∀ te ∈ st.events, now - te.timestamp ≤ W) ∧ st.events.length ≤ M

/-- C2: `Push` sweeps, appends the event stamped `now` and truncates to
the newest `M`; `getAll`, `getBatch`, `popBatch`, `count` and `isEmpty`
sweep first — so immediately after any of these operations on a
time-ordered buffer holding at most `M` entries, every retained entry's
age is ≤ `W` and at most `M` entries remain. -/
theorem sliding_ops_bound_age_and_size (swb : SlidingWindowBuffer) (now : Int)
    (e : Ev) (n : Int)
    (hsorted : swb.events.Pairwise fun a b => a.timestamp ≤ b.timestamp)
    (hM : swb.events.length ≤ swb.maxSize)
    (hW : 0 ≤ swb.windowSize) :
    SWInv swb.windowSize swb.maxSize now (swb.Push e now) ∧
    SWInv swb.windowSize swb.maxSize now ((swb.GetAll now).2) ∧
    SWInv swb.windowSize swb.maxSize now ((swb.GetBatch n now).2) ∧
    SWInv swb.windowSize swb.maxSize now ((swb.PopBatch n now).2) ∧
    SWInv swb.windowSize swb.maxSize now ((swb.Count now).2) ∧
    SWInv swb.windowSize swb.maxSize now ((swb.IsEmpty now).2) := by
  have hmem : ∀ te ∈ (swb.removeExpired now).events,
      now - te.timestamp ≤ swb.windowSize := by
    intro te hte
    rw [removeExpired_events_eq, dropWhile_le_filter_of_sorted _ _ hsorted] at hte
    have h1 := (List.mem_filter.mp hte).2
    simp at h1
    omega
  have hlen : (swb.removeExpired now).events.length ≤ swb.maxSize := by
    rw [removeExpired_events_eq]
    exact le_trans (List.Sublist.length_le (List.dropWhile_sublist _)) hM
  have hswept : SWInv swb.windowSize swb.maxSize now (swb.removeExpired now) :=
    ⟨hmem, hlen⟩
  have hGA : (swb.GetAll now).2 = swb.removeExpired now := rfl
  have hCt : (swb.Count now).2 = swb.removeExpired now := rfl
  have hIE : (swb.IsEmpty now).2 = swb.removeExpired now := rfl
  have hLapp : ((swb.removeExpired now).events
      ++ [({ event := e, timestamp := now } : TimestampedEvent)]).length
      = (swb.removeExpired now).events.length + 1 := by simp
  refine ⟨?_, hGA ▸ hswept, ?_, ?_, hCt ▸ hswept, hIE ▸ hswept⟩
  · -- Push
    simp only [SlidingWindowBuffer.Push]
    split
    next h =>
      rw [removeExpired_maxSize, hLapp] at h
      constructor
      · intro te hte
        have hte2 := List.mem_of_mem_drop hte
        rcases List.mem_append.mp hte2 with h1 | h1
        · exact hmem te h1
        · have h6 : te = { event := e, timestamp := now } := by simpa using h1
          rw [h6]
          simpa using hW
      · simp only [List.length_drop, hLapp, removeExpired_maxSize]
        omega
    next h =>
      rw [removeExpired_maxSize, hLapp] at h
      constructor
      · intro te hte
        rcases List.mem_append.mp hte with h1 | h1
        · exact hmem te h1
        · have h6 : te = { event := e, timestamp := now } := by simpa using h1
          rw [h6]
          simpa using hW
      · show ((swb.removeExpired now).events
            ++ [({ event := e, timestamp := now } : TimestampedEvent)]).length
            ≤ swb.maxSize
        rw [hLapp]
        omega
  · -- GetBatch
    have hGB : (swb.GetBatch n now).2 = swb.removeExpired now := by
      simp only [SlidingWindowBuffer.GetBatch]
      split <;> split <;> rfl
    rw [hGB]
    exact hswept
  · -- PopBatch
    have hPB : (swb.PopBatch n now).2 = swb.removeExpired now ∨
        ∃ m, (swb.PopBatch n now).2
          = { swb.removeExpired now with
              events := (swb.removeExpired now).events.drop m } := by
      simp only [SlidingWindowBuffer.PopBatch]
      split <;> split
      · exact Or.inl rfl
      · split
        · exact Or.inl rfl
        · exact Or.inr ⟨_, rfl⟩
      · exact Or.inl rfl
      · split
        · exact Or.inl rfl
        · exact Or.inr ⟨_, rfl⟩
    rcases hPB with hPB | ⟨m, hPB⟩ <;> rw [hPB]
    · exact hswept
    · constructor
      · intro te hte
        exact hmem te (List.mem_of_mem_drop hte)
      · simp only [List.length_drop]
        omega

/-- Witness for C2: a one-entry sorted buffer with `W = 10`, `M = 3`,
pushed into at time 5. -/
theorem sliding_ops_bound_age_and_size_witness :
    (([{ event := some 1, timestamp := 0 }] : List TimestampedEvent).Pairwise
      fun a b => a.timestamp ≤ b.timestamp) ∧
    SWInv 10 3 5 (SlidingWindowBuffer.Push
      { events := [{ event := some 1, timestamp := 0 }], windowSize := 10, maxSize := 3 }
      (some 2) 5) := by
  refine ⟨by decide, ?_⟩
  exact (sliding_ops_bound_age_and_size
    { events := [{ event := some 1, timestamp := 0 }], windowSize := 10, maxSize := 3 }
    5 (some 2) 1 (by decide) (by decide) (by decide)).1

/-! ## Token bucket lemmas -/

/-- At a fixed instant (no elapsed time), a run of `allow` calls admits at
most the tokens available at the start of the run. -/
theorem allowTimes_sameTime_le {t : ℚ} :
    ∀ (m : ℕ) (tb : TokenBucket), tb.lastTime = t → tb.tokens ≤ tb.burst →
      ((allowTimes tb t m).1 : ℚ) ≤ max tb.tokens 0 := by
  intro m
  induction m with
  | zero =>
    intro tb _ _
    simp [allowTimes]
  | succ m ih =>
    intro tb hlt htok
    have hadv : tb.advance t = { tb with tokens := tb.tokens, lastTime := t } := by
      simp [TokenBucket.advance, hlt, sub_self, min_eq_right htok]
    by_cases h1 : 1 ≤ tb.tokens
    · have hallow : tb.allow t
          = (true, { tb with tokens := tb.tokens - 1, lastTime := t }) := by
        simp [TokenBucket.allow, hadv, h1]
      have h2 : ((allowTimes { tb with tokens := tb.tokens - 1, lastTime := t } t m).1 : ℚ)
          ≤ max (tb.tokens - 1) 0 :=
        ih { tb with tokens := tb.tokens - 1, lastTime := t } rfl
          (by show tb.tokens - 1 ≤ tb.burst; linarith)
      have hgoal : ((allowTimes tb t (m + 1)).1 : ℚ)
          = 1 + ((allowTimes { tb with tokens := tb.tokens - 1, lastTime := t } t m).1 : ℚ) := by
        simp [allowTimes, hallow]
      rw [hgoal, max_eq_left (by linarith : (0:ℚ) ≤ tb.tokens)]
      rcases le_or_lt (tb.tokens - 1) 0 with h3 | h3
      · rw [max_eq_right h3] at h2
        linarith
      · rw [max_eq_left h3.le] at h2
        linarith
    · have hallow : tb.allow t
          = (false, { tb with tokens := tb.tokens, lastTime := t }) := by
        simp [TokenBucket.allow, hadv, h1]
      have h2 : ((allowTimes { tb with tokens := tb.tokens, lastTime := t } t m).1 : ℚ)
          ≤ max tb.tokens 0 :=
        ih { tb with tokens := tb.tokens, lastTime := t } rfl
          (by show tb.tokens ≤ tb.burst; exact htok)
      have hgoal : ((allowTimes tb t (m + 1)).1 : ℚ)
          = ((allowTimes { tb with tokens := tb.tokens, lastTime := t } t m).1 : ℚ) := by
        simp [allowTimes, hallow]
      rw [hgoal]
      exact h2

/-- A run of same-instant `allow` calls admits at most `burst` events. -/
theorem allowTimes_le_burst (tb : TokenBucket) (t : ℚ) (m : ℕ)
    (hB : 1 ≤ tb.burst) :
    ((allowTimes tb t m).1 : ℚ) ≤ tb.burst := by
  cases m with
  | zero =>
    simp [allowTimes]
    linarith
  | succ m =>
    have hcap : (tb.advance t).tokens ≤ tb.burst := min_le_left _ _
    by_cases h1 : 1 ≤ (tb.advance t).tokens
    · have hallow : tb.allow t
          = (true, { tb.advance t with tokens := (tb.advance t).tokens - 1 }) := by
        simp [TokenBucket.allow, h1]
      have h2 : ((allowTimes { tb.advance t with
            tokens := (tb.advance t).tokens - 1 } t m).1 : ℚ)
          ≤ max ((tb.advance t).tokens - 1) 0 :=
        allowTimes_sameTime_le m
          { tb.advance t with tokens := (tb.advance t).tokens - 1 } rfl
          (by show (tb.advance t).tokens - 1 ≤ tb.burst; linarith)
      have hgoal : ((allowTimes tb t (m + 1)).1 : ℚ)
          = 1 + ((allowTimes { tb.advance t with
              tokens := (tb.advance t).tokens - 1 } t m).1 : ℚ) := by
        simp [allowTimes, hallow]
      rw [hgoal]
      rcases le_or_lt ((tb.advance t).tokens - 1) 0 with h3 | h3
      · rw [max_eq_right h3] at h2
        linarith
      · rw [max_eq_left h3.le] at h2
        linarith
    · have hallow : tb.allow t = (false, tb.advance t) := by
        simp [TokenBucket.allow, h1]
      have h2 : ((allowTimes (tb.advance t) t m).1 : ℚ)
          ≤ max (tb.advance t).tokens 0 :=
        allowTimes_sameTime_le m (tb.advance t) rfl hcap
      have hgoal : ((allowTimes tb t (m + 1)).1 : ℚ)
          = ((allowTimes (tb.advance t) t m).1 : ℚ) := by
        simp [allowTimes, hallow]
      have h4 : max (tb.advance t).tokens 0 ≤ tb.burst :=
        max_le hcap (by linarith)
      rw [hgoal]
      linarith

/-- C3: tokens never exceed the burst `B` (at creation and after any
`allow`), so a same-instant run of `allow` calls on a fresh limiter
admits at most `B` events; with rate 1 and burst 1 two back-to-back
`allow` calls return `true` then `false`; and once a full refill interval
`B / R` has elapsed, the next `allow` succeeds. -/
theorem tokenBucket_burst_cap_and_refill (R B t₀ : ℚ) (_hR : 0 < R) (hB : 1 ≤ B) :
    (newTokenBucket R B t₀).tokens ≤ B ∧
    (∀ (tb : TokenBucket) (t : ℚ), (tb.allow t).2.tokens ≤ tb.burst) ∧
    (∀ (t : ℚ) (m : ℕ), ((allowTimes (newTokenBucket R B t₀) t m).1 : ℚ) ≤ B) ∧
    ((newTokenBucket 1 1 0).allow 0).1 = true ∧
    (((newTokenBucket 1 1 0).allow 0).2.allow 0).1 = false ∧
    (∀ (tb : TokenBucket) (t : ℚ), 0 < tb.rate → 1 ≤ tb.burst → 0 ≤ tb.tokens →
      tb.burst / tb.rate ≤ t - tb.lastTime → (tb.allow t).1 = true) := by
  refine ⟨le_refl _,
    ?_, ?_,
    by norm_num [TokenBucket.allow, TokenBucket.advance, newTokenBucket],
    by norm_num [TokenBucket.allow, TokenBucket.advance, newTokenBucket],
    ?_⟩
  · intro tb t
    have hcap : (tb.advance t).tokens ≤ tb.burst := min_le_left _ _
    simp only [TokenBucket.allow]
    split
    · show (tb.advance t).tokens - 1 ≤ tb.burst
      linarith
    · exact hcap
  · intro t m
    exact allowTimes_le_burst (newTokenBucket R B t₀) t m hB
  · intro tb t hr hb htok hwait
    have h1 : tb.burst ≤ tb.rate * (t - tb.lastTime) := by
      rw [div_le_iff₀ hr] at hwait
      linarith [hwait]
    have h2 : (tb.advance t).tokens = tb.burst := by
      show min tb.burst (tb.tokens + tb.rate * (t - tb.lastTime)) = tb.burst
      exact min_eq_left (by linarith)
    simp only [TokenBucket.allow]
    split
    · rfl
    · next h3 =>
      rw [h2] at h3
      exact absurd hb h3

/-- Witness for C3 at rate 1, burst 1: three same-instant `allow` calls
on a fresh limiter admit at most one event, and the full-refill clause
fires after waiting one second. -/
theorem tokenBucket_burst_cap_and_refill_witness :
    (newTokenBucket 1 1 0).tokens ≤ 1 ∧
    ((allowTimes (newTokenBucket 1 1 0) 0 3).1 : ℚ) ≤ 1 ∧
    ((newTokenBucket 1 1 0).allow 0).1 = true ∧
    (((newTokenBucket 1 1 0).allow 0).2.allow 0).1 = false ∧
    ((((newTokenBucket 1 1 0).allow 0).2.allow 0).2.allow 1).1 = true := by
  have h := tokenBucket_burst_cap_and_refill 1 1 0 (by norm_num) (by norm_num)
  refine ⟨h.1, h.2.2.1 0 3, h.2.2.2.1, h.2.2.2.2.1, ?_⟩
  refine h.2.2.2.2.2 _ 1
    (by norm_num [TokenBucket.allow, TokenBucket.advance, newTokenBucket])
    (by norm_num [TokenBucket.allow, TokenBucket.advance, newTokenBucket])
    (by norm_num [TokenBucket.allow, TokenBucket.advance, newTokenBucket])
    (by norm_num [TokenBucket.allow, TokenBucket.advance, newTokenBucket])

/-- C8: every `Allow` call increments exactly one of the
processed/dropped counters by one, matching its boolean result; `AllowN`
reserves all `n` tokens or none and bumps the matching counter by `n`;
and under `Allow`, `AllowN` and `Wait` both counters are monotonically
non-decreasing. -/
theorem rateLimiter_counters_spec (rl : RateLimiter) (t : ℚ) (n : ℕ) (success : Bool) :
    (rl.Allow t).2.processedCount
      = rl.processedCount + (if (rl.Allow t).1 then 1 else 0) ∧
    (rl.Allow t).2.droppedCount
      = rl.droppedCount + (if (rl.Allow t).1 then 0 else 1) ∧
    (rl.AllowN t n).2.processedCount
      = rl.processedCount + (if (rl.AllowN t n).1 then (n : Int) else 0) ∧
    (rl.AllowN t n).2.droppedCount
      = rl.droppedCount + (if (rl.AllowN t n).1 then 0 else (n : Int)) ∧
    (rl.AllowN t n).2.limiter.tokens
      = (if (n : ℚ) ≤ (rl.limiter.advance t).tokens
          then (rl.limiter.advance t).tokens - (n : ℚ)
          else (rl.limiter.advance t).tokens) ∧
    rl.processedCount ≤ (rl.Allow t).2.processedCount ∧
    rl.droppedCount ≤ (rl.Allow t).2.droppedCount ∧
    rl.processedCount ≤ (rl.AllowN t n).2.processedCount ∧
    rl.droppedCount ≤ (rl.AllowN t n).2.droppedCount ∧
    rl.processedCount ≤ (rl.WaitEffect success).processedCount ∧
    rl.droppedCount ≤ (rl.WaitEffect success).droppedCount := by
  have hlim : (rl.AllowN t n).2.limiter = (rl.limiter.allowN t n).2 := by
    simp only [RateLimiter.AllowN]
    split <;> rfl
  have htok : (rl.limiter.allowN t n).2.tokens
      = (if (n : ℚ) ≤ (rl.limiter.advance t).tokens
          then (rl.limiter.advance t).tokens - (n : ℚ)
          else (rl.limiter.advance t).tokens) := by
    simp only [TokenBucket.allowN]
    split <;> rfl
  refine ⟨?_, ?_, ?_, ?_, by rw [hlim, htok], ?_, ?_, ?_, ?_, ?_, ?_⟩ <;>
    simp only [RateLimiter.Allow, RateLimiter.AllowN, RateLimiter.WaitEffect] <;>
    split <;>
    simp

/-- C4: `popBatch(n)` is claimed to yield an empty sequence for `n ≤ 0`
or an empty buffer, never a crash.  The code only clamps `n` from above:
for negative `n` both variants reach `make([]*model.FlightEvent, 0, n)`,
which panics with "makeslice: cap out of range" (`none` here), while
`n = 0`, and a positive `n` on an empty buffer, do return empty batches. -/
theorem popBatch_negative_n_panics :
    ((NewRingBuffer 3).PopBatch (-1)).1 = none ∧
    ((pushAll [some 5] (NewRingBuffer 3)).PopBatch (-1)).1 = none ∧
    ((NewSlidingWindowBuffer 10 5).PopBatch (-1) 0).1 = none ∧
    ((NewRingBuffer 3).PopBatch 0).1 = some [] ∧
    ((NewRingBuffer 3).PopBatch 2).1 = some [] ∧
    ((NewSlidingWindowBuffer 10 5).PopBatch 3 0).1 = some [] := by decide

/-- C5: after `Stop()` has closed the input channel and cancelled the
context, `Submit`'s `select` has two ready cases: receiving from
`ctx.Done()` (returning `false`) and sending on the closed input channel
— and executing a send on a closed channel panics.  Go's runtime picks
uniformly among ready cases, so `Submit` after `Stop` can panic instead
of failing gracefully. -/
theorem submit_after_stop_can_panic (bufferSize : Nat) :
    SubmitResult.panics ∈ ((NewEventProcessor bufferSize).Stop).submitOutcomes ∧
    ((NewEventProcessor bufferSize).Stop).submitOutcomes
      = [SubmitResult.panics, SubmitResult.returnsFalse] := by
  constructor <;>
    simp [NewEventProcessor, EventProcessor.Stop, EventProcessor.submitOutcomes]

/-- C7: on the ring buffer, `popBatch(n)` followed by `getAll()` does not
always reconstruct the pre-pop contents.  Capacity 2, push A and B (now
full), `Pop()` (clears `isFull` without decrementing `count`): `getAll()`
sees `[B]`, `PopBatch(1)` pops `[B]`, but the following `getAll()` then
returns two `nil` slots instead of nothing, so popped ++ remaining
differs from the pre-pop contents. -/
theorem ring_popBatch_getAll_union_fails :
    ((pushAll [some 1, some 2] (NewRingBuffer 2)).Pop).2.GetAll = [some 2] ∧
    (((pushAll [some 1, some 2] (NewRingBuffer 2)).Pop).2.PopBatch 1).1
      = some [some 2] ∧
    (((pushAll [some 1, some 2] (NewRingBuffer 2)).Pop).2.PopBatch 1).2.GetAll
      = [none, none] ∧
    [some 2] ++ [none, none] ≠ [some 2] := by decide

/-- C10 (implicit): `CountInLastDuration` and `GetEventsInRange` take only
the read lock and perform no expiry sweep (in this embedding they return
no new state at all), so on an idle buffer they observe entries older than
the window: here an entry of age 100 with `W = 10` is counted by
`CountInLastDuration(200)` and returned by `GetEventsInRange`, while the
sweeping `Count()` at the same instant reports the buffer empty. -/
theorem sliding_stale_reads_no_sweep :
    SlidingWindowBuffer.CountInLastDuration
      { events := [{ event := some 3, timestamp := 0 }], windowSize := 10, maxSize := 5 }
      200 100 = 1 ∧
    SlidingWindowBuffer.GetEventsInRange
      { events := [{ event := some 3, timestamp := 0 }], windowSize := 10, maxSize := 5 }
      (-1) 101 = [some 3] ∧
    (SlidingWindowBuffer.Count
      { events := [{ event := some 3, timestamp := 0 }], windowSize := 10, maxSize := 5 }
      100).1 = 0 ∧
    (100 : Int) - 0 > 10 := by decide

/-- Witness for C1: capacity 3 with pushes A, B, C, D yields
`Count = 3`, `IsFull`, and `GetAll = [B, C, D]`. -/
theorem ring_push_overflow_keeps_last_C_witness :
    (pushAll [some 0, some 1, some 2, some 3] (NewRingBuffer 3)).Count = 3 ∧
    (pushAll [some 0, some 1, some 2, some 3] (NewRingBuffer 3)).IsFull = true ∧
    (pushAll [some 0, some 1, some 2, some 3] (NewRingBuffer 3)).GetAll
      = [some 1, some 2, some 3] := by
  have h := ring_push_overflow_keeps_last_C 3 [some 0, some 1, some 2, some 3]
    (by decide) (by decide)
  exact ⟨h.1, h.2.1, by rw [h.2.2]; rfl⟩
